import Mathlib

/-!
Verification of the job-orchestration and post-processing core of the
Parakeet-v3 STT service (FastAPI + NeMo diarization repository).

Times are modelled as rationals (`ℚ`); Python floats in the source carry
exact decimal constants at every comparison relevant here, so the rational
model preserves all branching behaviour on the inputs we consider.

The embedding follows the source files:
  * `services/diarization.py`   — `DiarizationService.merge_with_transcription`
  * `services/transcription.py` — `_clean_text`, `_extract_words`,
    `_fallback_words`, `_estimate_word_count`, `_build_segments_from_words`
  * `app/task_store.py`         — `TaskStore.get` / `TaskStore.update`
  * `app/task_queue.py`         — `TaskQueue.enqueue`
  * `tasks/transcription_task.py` — `process_transcription` (event-trace model)
  * `app/main.py`               — keyword arguments passed by the `/transcribe`
    endpoint to the queued job
-/

namespace STT

/-! ### Data model

`Word`, transcription segments and speaker turns use `stop` for the Python
field named `end` (a Lean keyword).  `word` is the Python dict key `'word'`.
-/

/-- A word with timestamps, as produced by `_extract_words` / `_fallback_words`. -/
structure Word where
  word : String
  start : ℚ
  stop : ℚ
  deriving Repr, DecidableEq

/-- A transcription segment (dict with keys `start`, `end`, `text`). -/
structure TransSeg where
  start : ℚ
  stop : ℚ
  text : String
  deriving Repr, DecidableEq

/-- A speaker turn from the diarization engine (keys `start`, `end`, `speaker`). -/
structure SpkTurn where
  start : ℚ
  stop : ℚ
  speaker : String
  deriving Repr, DecidableEq

/-- A transcription segment with an attached speaker label. -/
structure MergedSeg where
  start : ℚ
  stop : ℚ
  text : String
  speaker : String
  deriving Repr, DecidableEq

/-! ### Diarization aligner (`DiarizationService.merge_with_transcription`) -/

/-- Temporal overlap of `[ts, te]` with a speaker turn:
`max(0, min(trans_end, spk_end) - max(trans_start, spk_start))`. -/
def overlapQ (ts te : ℚ) (t : SpkTurn) : ℚ :=
  max 0 (min te t.stop - max ts t.start)

/-- The inner loop of `merge_with_transcription`: running best speaker and
maximal overlap, starting from `("UNKNOWN", 0)`, updated whenever a turn has
strictly greater overlap than the running maximum. -/
def pickSpeaker (ts te : ℚ) (turns : List SpkTurn) (acc : String × ℚ) : String × ℚ :=
  turns.foldl
    (fun acc t =>
      let ov := overlapQ ts te t
      if acc.2 < ov then (t.speaker, ov) else acc)
    acc

/-- Embedding of `DiarizationService.merge_with_transcription`: each
transcription segment keeps its `start`/`end`/`text` and gains the speaker of
the first turn whose overlap strictly exceeds the running maximum. -/
def mergeWithTranscription (segs : List TransSeg) (turns : List SpkTurn) :
    List MergedSeg :=
  segs.map fun s =>
    { start := s.start, stop := s.stop, text := s.text
      speaker := (pickSpeaker s.start s.stop turns ("UNKNOWN", 0)).1 }

/-- Maximum of the overlaps of `turns`, folded from the initial value `m`. -/
def maxOverlapFrom (ts te : ℚ) (m : ℚ) (turns : List SpkTurn) : ℚ :=
  turns.foldl (fun a t => max a (overlapQ ts te t)) m

/-- Speaker assignment as the specification words it: the speaker of the first
turn (in input order) attaining the maximal overlap, or `UNKNOWN` when every
turn has zero overlap with the segment. -/
def specSpeaker (ts te : ℚ) (turns : List SpkTurn) : String :=
  let m := maxOverlapFrom ts te 0 turns
  if m ≤ 0 then "UNKNOWN"
  else
    match turns.find? (fun t => m ≤ overlapQ ts te t) with
    | some t => t.speaker
    | none => "UNKNOWN"

/-- Specification-side aligner: same segments, speaker given by `specSpeaker`. -/
def specMerge (segs : List TransSeg) (turns : List SpkTurn) : List MergedSeg :=
  segs.map fun s =>
    { start := s.start, stop := s.stop, text := s.text
      speaker := specSpeaker s.start s.stop turns }

theorem maxOverlapFrom_cons (ts te m : ℚ) (t : SpkTurn) (l : List SpkTurn) :
    maxOverlapFrom ts te m (t :: l) = maxOverlapFrom ts te (max m (overlapQ ts te t)) l := rfl

theorem le_maxOverlapFrom (ts te : ℚ) (m : ℚ) (turns : List SpkTurn) :
    m ≤ maxOverlapFrom ts te m turns := by
  induction turns generalizing m with
  | nil => exact le_rfl
  | cons t l ih =>
      rw [maxOverlapFrom_cons]
      exact le_trans (le_max_left _ _) (ih _)

theorem maxOverlapFrom_attained (ts te : ℚ) (m : ℚ) (turns : List SpkTurn) :
    maxOverlapFrom ts te m turns = m ∨
      ∃ t ∈ turns, maxOverlapFrom ts te m turns = overlapQ ts te t := by
  induction turns generalizing m with
  | nil => exact Or.inl rfl
  | cons t l ih =>
      rw [maxOverlapFrom_cons]
      rcases le_total (overlapQ ts te t) m with h | h
      · rw [max_eq_left h]
        rcases ih m with h1 | ⟨u, hu, h1⟩
        · exact Or.inl h1
        · exact Or.inr ⟨u, List.mem_cons_of_mem _ hu, h1⟩
      · rw [max_eq_right h]
        rcases ih (overlapQ ts te t) with h1 | ⟨u, hu, h1⟩
        · exact Or.inr ⟨t, List.mem_cons_self _ _, h1⟩
        · exact Or.inr ⟨u, List.mem_cons_of_mem _ hu, h1⟩

/-- The fold of `merge_with_transcription` computes exactly the
first-turn-attaining-the-maximum speaker (or keeps the accumulator when no
turn improves on the running maximum). -/
theorem pickSpeaker_eq_spec (ts te : ℚ) (turns : List SpkTurn) :
    ∀ b m, pickSpeaker ts te turns (b, m) =
      (if maxOverlapFrom ts te m turns ≤ m then b
       else
         match turns.find? (fun t => maxOverlapFrom ts te m turns ≤ overlapQ ts te t) with
         | some t => t.speaker
         | none => b,
       maxOverlapFrom ts te m turns) := by
  induction turns with
  | nil => intro b m; simp [pickSpeaker, maxOverlapFrom]
  | cons t l ih =>
      intro b m
      rw [maxOverlapFrom_cons]
      by_cases hlt : m < overlapQ ts te t
      · have hmax : max m (overlapQ ts te t) = overlapQ ts te t := max_eq_right hlt.le
        rw [hmax]
        have hstep : pickSpeaker ts te (t :: l) (b, m) =
            pickSpeaker ts te l (t.speaker, overlapQ ts te t) := by
          simp [pickSpeaker, hlt]
        rw [hstep, ih]
        have hM := le_maxOverlapFrom ts te (overlapQ ts te t) l
        by_cases hle : maxOverlapFrom ts te (overlapQ ts te t) l ≤ overlapQ ts te t
        · have hEq : maxOverlapFrom ts te (overlapQ ts te t) l = overlapQ ts te t :=
            le_antisymm hle hM
          have hfind : List.find?
              (fun u => maxOverlapFrom ts te (overlapQ ts te t) l ≤ overlapQ ts te u)
              (t :: l) = some t := by
            rw [List.find?_cons_of_pos]
            simp [hEq]
          rw [if_pos hle, hfind]
          have hnot : ¬ maxOverlapFrom ts te (overlapQ ts te t) l ≤ m := by
            rw [hEq]; exact not_le.mpr hlt
          rw [if_neg hnot]
        · have hnotm : ¬ maxOverlapFrom ts te (overlapQ ts te t) l ≤ m :=
            fun h => hle (le_trans h hlt.le)
          have hfind : List.find?
              (fun u => maxOverlapFrom ts te (overlapQ ts te t) l ≤ overlapQ ts te u)
              (t :: l) =
              List.find?
                (fun u => maxOverlapFrom ts te (overlapQ ts te t) l ≤ overlapQ ts te u) l := by
            rw [List.find?_cons_of_neg]
            simpa using hle
          rw [if_neg hle, if_neg hnotm, hfind]
          rcases hfound : List.find?
              (fun u => maxOverlapFrom ts te (overlapQ ts te t) l ≤ overlapQ ts te u) l with
            _ | u
          · exfalso
            rcases maxOverlapFrom_attained ts te (overlapQ ts te t) l with hat | ⟨u, hu, hat⟩
            · exact hle (le_of_eq hat)
            · have := List.find?_eq_none.mp hfound u hu
              simp only [decide_eq_true_eq] at this
              exact this (le_of_eq hat)
          · rfl
      · have hmax : max m (overlapQ ts te t) = m := max_eq_left (not_lt.mp hlt)
        rw [hmax]
        have hstep : pickSpeaker ts te (t :: l) (b, m) = pickSpeaker ts te l (b, m) := by
          simp [pickSpeaker, hlt]
        rw [hstep, ih]
        by_cases hle : maxOverlapFrom ts te m l ≤ m
        · rw [if_pos hle, if_pos hle]
        · have hfind : List.find? (fun u => maxOverlapFrom ts te m l ≤ overlapQ ts te u)
              (t :: l) =
              List.find? (fun u => maxOverlapFrom ts te m l ≤ overlapQ ts te u) l := by
            rw [List.find?_cons_of_neg]
            have : ¬ maxOverlapFrom ts te m l ≤ overlapQ ts te t :=
              fun h => hle (le_trans h (not_lt.mp hlt))
            simpa using this
          rw [if_neg hle, if_neg hle, hfind]

/-- The code aligner agrees with the specification aligner on every input. -/
theorem mergeWithTranscription_eq_specMerge (segs : List TransSeg)
    (turns : List SpkTurn) :
    mergeWithTranscription segs turns = specMerge segs turns := by
  unfold mergeWithTranscription specMerge
  refine List.map_congr_left fun s _ => ?_
  have h := pickSpeaker_eq_spec s.start s.stop turns "UNKNOWN" 0
  simp only [specSpeaker, h]

/-- C1: the aligner returns one output segment per input segment, assigning
each segment the speaker of the turn with strictly greatest temporal overlap
`max(0, min(seg.end, turn.end) - max(seg.start, turn.start))`, keeping the
first turn in input order on ties, and labeling the segment UNKNOWN when every
turn has zero overlap; in particular a segment `[0,10)` against turns
`A:[0,4)` and `B:[4,10)` is labeled `B`, and a segment overlapped by no turn
is labeled `UNKNOWN`. -/
theorem c1_aligner_max_overlap :
    (∀ segs turns, mergeWithTranscription segs turns = specMerge segs turns) ∧
    mergeWithTranscription [⟨0, 10, "seg"⟩] [⟨0, 4, "A"⟩, ⟨4, 10, "B"⟩] =
      [⟨0, 10, "seg", "B"⟩] ∧
    mergeWithTranscription [⟨20, 21, "seg"⟩] [⟨0, 4, "A"⟩, ⟨4, 10, "B"⟩] =
      [⟨20, 21, "seg", "UNKNOWN"⟩] :=
  ⟨mergeWithTranscription_eq_specMerge,
   by norm_num [mergeWithTranscription, pickSpeaker, overlapQ, List.foldl],
   by norm_num [mergeWithTranscription, pickSpeaker, overlapQ, List.foldl]⟩

/-! ### String helpers of `services/transcription.py`

`_clean_text` replaces the sentencepiece marker U+2581 by a space, collapses
whitespace runs (Python `\s+`) into single spaces and strips both ends.
`pyTokens` is `re.findall(r"\S+", s)`.
-/

/-- Python `\s` on the characters the service can meet (ASCII whitespace). -/
def isPySpace (c : Char) : Bool :=
  c = ' ' || c = '\t' || c = '\n' || c = '\r' || c = Char.ofNat 11 || c = Char.ofNat 12

/-- The `text.replace("▁", " ")` step of `_clean_text`. -/
def replaceMarker (c : Char) : Char :=
  if c = '▁' then ' ' else c

/-- Collapse whitespace runs into single spaces; a trailing run emits nothing.
The `pending` flag records whitespace seen since the last emitted character. -/
def squeezeWs : List Char → Bool → List Char
  | [], _ => []
  | c :: cs, pending =>
      if isPySpace c then squeezeWs cs true
      else if pending then ' ' :: c :: squeezeWs cs false
      else c :: squeezeWs cs false

/-- Embedding of `_clean_text`: marker replacement, `re.sub(r"\s+", " ", ·)`
and `.strip()` (leading whitespace dropped, internal runs to one space,
trailing run dropped). -/
def cleanText (s : String) : String :=
  String.mk (squeezeWs ((s.data.map replaceMarker).dropWhile (isPySpace ·)) false)

/-- Accumulating worker for `pyTokens`; `cur` holds the current fragment
reversed. -/
def pyTokensAux : List Char → List Char → List String
  | [], cur => if cur.isEmpty then [] else [String.mk cur.reverse]
  | c :: cs, cur =>
      if isPySpace c then
        if cur.isEmpty then pyTokensAux cs []
        else String.mk cur.reverse :: pyTokensAux cs []
      else pyTokensAux cs (c :: cur)

/-- Embedding of `re.findall(r"\S+", s)`: maximal runs of non-whitespace. -/
def pyTokens (s : String) : List String :=
  pyTokensAux s.data []

/-- Embedding of `_estimate_word_count`: the number of `\S+` matches. -/
def estimateWordCount (text : String) : Nat :=
  (pyTokens text).length

/-! ### Fallback word timing (`_fallback_words`) -/

/-- Worker for `_fallback_words`: fragment at index `i` gets
`[step*i, step*(i+1))` (the final fragment ends at `dur`), and a span that
would be empty or reversed is replaced by `[start, start + 0.05)`. -/
def fwGo (dur step : ℚ) (n : Nat) : List String → Nat → List Word
  | [], _ => []
  | p :: ps, i =>
      let start := step * (i : ℚ)
      let e0 := if i + 1 < n then step * ((i + 1 : Nat) : ℚ) else dur
      let e := if e0 ≤ start then start + 1/20 else e0
      ⟨p, start, e⟩ :: fwGo dur step n ps (i + 1)

/-- Embedding of `_fallback_words`: split the cleaned text into `\S+`
fragments and spread them over the duration (`step = duration/n` when the
duration is positive, `0` otherwise). -/
def fallbackWords (text : String) (dur : ℚ) : List Word :=
  if (pyTokens (cleanText text)).isEmpty then []
  else
    fwGo dur
      (if 0 < dur then dur / (((pyTokens (cleanText text)).length : ℚ)) else 0)
      (pyTokens (cleanText text)).length (pyTokens (cleanText text)) 0

theorem fwGo_length (dur step : ℚ) (n : Nat) :
    ∀ (ps : List String) (i : Nat), (fwGo dur step n ps i).length = ps.length := by
  intro ps
  induction ps with
  | nil => intro i; rfl
  | cons p ps ih => intro i; simp [fwGo, ih]

theorem fwGo_getElem? (dur step : ℚ) (n : Nat) :
    ∀ (ps : List String) (i j : Nat),
      (fwGo dur step n ps i)[j]? = (ps[j]?).map (fun p =>
        let start := step * ((i + j : Nat) : ℚ)
        let e0 := if i + j + 1 < n then step * ((i + j + 1 : Nat) : ℚ) else dur
        ⟨p, start, if e0 ≤ start then start + 1/20 else e0⟩) := by
  intro ps
  induction ps with
  | nil => intro i j; simp [fwGo]
  | cons p ps ih =>
      intro i j
      cases j with
      | zero => simp [fwGo]
      | succ j =>
          have hidx : i + 1 + j = i + (j + 1) := by omega
          have := ih (i + 1) j
          rw [hidx] at this
          simpa [fwGo] using this

theorem fwGo_zero_step (n : Nat) :
    ∀ (ps : List String) (i : Nat),
      fwGo 0 0 n ps i = ps.map (fun p => ⟨p, 0, 1/20⟩) := by
  intro ps
  induction ps with
  | nil => intro i; rfl
  | cons p ps ih =>
      intro i
      simp [fwGo, ih]

/-- C5 counterexample: at zero duration the fallback does not produce
zero-length placeholder spans — each fragment receives the span
`[0, 0.05)`. -/
theorem c5_zero_duration_counterexample :
    fallbackWords "a b" 0 = [⟨"a", 0, 1/20⟩, ⟨"b", 0, 1/20⟩] ∧
    ¬ (∀ w ∈ fallbackWords "a b" 0, w.stop = w.start) := by
  have htok : pyTokens (cleanText "a b") = ["a", "b"] := rfl
  have hfw : fallbackWords "a b" 0 = [⟨"a", 0, 1/20⟩, ⟨"b", 0, 1/20⟩] := by
    rw [fallbackWords]
    simp only [htok]
    norm_num
    rw [fwGo_zero_step]
    rfl
  refine ⟨hfw, fun h => ?_⟩
  have := h ⟨"a", 0, 1/20⟩ (by rw [hfw]; exact List.mem_cons_self _ _)
  norm_num at this

/-- C5 (amended): for non-empty text splitting into `n` fragments and a
positive duration, fragment `j` spans `[dur*j/n, dur*(j+1)/n)` with the final
fragment ending exactly at `dur`; when the duration is zero every fragment is
assigned the span `[0, 0.05)` (start `0`, end `0.05`), not a zero-length
placeholder. -/
theorem c5_fallback_uniform (text : String) (dur : ℚ)
    (hne : pyTokens (cleanText text) ≠ []) :
    (0 < dur →
      (∀ j p, j + 1 < (pyTokens (cleanText text)).length →
        (pyTokens (cleanText text))[j]? = some p →
        (fallbackWords text dur)[j]? =
          some ⟨p, dur * (j : ℚ) / ((pyTokens (cleanText text)).length : ℚ),
                   dur * ((j : ℚ) + 1) / ((pyTokens (cleanText text)).length : ℚ)⟩) ∧
      (∀ p, (pyTokens (cleanText text))[(pyTokens (cleanText text)).length - 1]? = some p →
        (fallbackWords text dur)[(pyTokens (cleanText text)).length - 1]? =
          some ⟨p, dur * (((pyTokens (cleanText text)).length - 1 : Nat) : ℚ) /
                     ((pyTokens (cleanText text)).length : ℚ), dur⟩)) ∧
    (dur = 0 → fallbackWords text dur =
      (pyTokens (cleanText text)).map (fun p => ⟨p, 0, 1/20⟩)) := by
  set parts := pyTokens (cleanText text) with hparts
  clear_value parts
  have hnemp : parts.isEmpty = false := by
    cases parts with
    | nil => exact absurd rfl hne
    | cons a l => rfl
  have hn : 0 < parts.length := by
    cases parts with
    | nil => exact absurd rfl hne
    | cons a l => simp
  constructor
  · intro hdur
    have hstep : (if 0 < dur then dur / (parts.length : ℚ) else 0) =
        dur / (parts.length : ℚ) := if_pos hdur
    have hnQ : (0 : ℚ) < (parts.length : ℚ) := by exact_mod_cast hn
    have hstep_pos : 0 < dur / (parts.length : ℚ) := div_pos hdur hnQ
    have hfw : fallbackWords text dur =
        fwGo dur (dur / (parts.length : ℚ)) parts.length parts 0 := by
      rw [fallbackWords, ← hparts, hnemp]
      simp [hstep]
    constructor
    · intro j p hj hp
      rw [hfw, fwGo_getElem? dur (dur / (parts.length : ℚ)) parts.length parts 0 j, hp]
      have hcond : 0 + j + 1 < parts.length := by omega
      simp only [Option.map_some, if_pos hcond]
      have hlt : dur / (parts.length : ℚ) * ((0 + j : Nat) : ℚ) <
          dur / (parts.length : ℚ) * ((0 + j + 1 : Nat) : ℚ) := by
        refine mul_lt_mul_of_pos_left ?_ hstep_pos
        exact_mod_cast Nat.lt_succ_self (0 + j)
      rw [if_neg (not_le.mpr hlt)]
      have h0j : ((0 + j : Nat) : ℚ) = (j : ℚ) := by push_cast; ring
      have h0j1 : ((0 + j + 1 : Nat) : ℚ) = (j : ℚ) + 1 := by push_cast; ring
      rw [h0j, h0j1]
      have e1 : dur / (parts.length : ℚ) * (j : ℚ) = dur * (j : ℚ) / (parts.length : ℚ) := by
        ring
      have e2 : dur / (parts.length : ℚ) * ((j : ℚ) + 1) =
          dur * ((j : ℚ) + 1) / (parts.length : ℚ) := by
        ring
      rw [e1, e2]
      rfl
    · intro p hp
      rw [hfw, fwGo_getElem? dur (dur / (parts.length : ℚ)) parts.length parts 0
        (parts.length - 1), hp]
      have hcond : ¬ (0 + (parts.length - 1) + 1 < parts.length) := by omega
      simp only [Option.map_some, if_neg hcond]
      have hlast : dur / (parts.length : ℚ) * ((0 + (parts.length - 1) : Nat) : ℚ) < dur := by
        have h1 : dur / (parts.length : ℚ) * ((0 + (parts.length - 1) : Nat) : ℚ) <
            dur / (parts.length : ℚ) * ((parts.length : Nat) : ℚ) := by
          refine mul_lt_mul_of_pos_left ?_ hstep_pos
          exact_mod_cast (by omega : 0 + (parts.length - 1) < parts.length)
        have h2 : dur / (parts.length : ℚ) * ((parts.length : Nat) : ℚ) = dur :=
          div_mul_cancel₀ dur (ne_of_gt hnQ)
        rw [h2] at h1
        exact h1
      rw [if_neg (not_le.mpr hlast)]
      have h0l : ((0 + (parts.length - 1) : Nat) : ℚ) = ((parts.length - 1 : Nat) : ℚ) := by
        norm_num
      rw [h0l]
      have e3 : dur / (parts.length : ℚ) * ((parts.length - 1 : Nat) : ℚ) =
          dur * ((parts.length - 1 : Nat) : ℚ) / (parts.length : ℚ) := by
        ring
      rw [e3]
      rfl
  · intro hdur
    subst hdur
    have hstep : (if (0 : ℚ) < 0 then (0 : ℚ) / (parts.length : ℚ) else 0) = 0 := by norm_num
    rw [fallbackWords, ← hparts, hnemp]
    simp only [Bool.false_eq_true, if_false, hstep]
    exact fwGo_zero_step parts.length parts 0

/-- C5 witness: `"a b c"` over 3 seconds — fragment 1 spans `[1, 2)` and the
final fragment ends exactly at 3. -/
theorem c5_fallback_uniform_witness :
    (fallbackWords "a b c" 3)[1]? = some ⟨"b", 1, 2⟩ ∧
    (fallbackWords "a b c" 3)[2]? = some ⟨"c", 2, 3⟩ := by
  have hlen : (pyTokens (cleanText "a b c")).length = 3 := rfl
  have h := (c5_fallback_uniform "a b c" 3 (by decide)).1 (by norm_num)
  have h1 := h.1 1 "b" (by decide) (by decide)
  have h2 := h.2 "c" (by decide)
  rw [hlen] at h1 h2
  norm_num at h1 h2
  exact ⟨h1, h2⟩

theorem fallbackWords_length (text : String) (dur : ℚ) :
    (fallbackWords text dur).length = (pyTokens (cleanText text)).length := by
  rw [fallbackWords]
  by_cases h : (pyTokens (cleanText text)).isEmpty
  · rw [if_pos h]
    have hnil : pyTokens (cleanText text) = [] := by
      cases hq : pyTokens (cleanText text) with
      | nil => rfl
      | cons a l => rw [hq] at h; simp at h
    rw [hnil]
    rfl
  · rw [if_neg h, fwGo_length]

/-! ### Word reconstruction (`_extract_words`) -/

/-- Python `str.strip()` restricted to the whitespace characters of
`isPySpace`. -/
def pyStrip (s : String) : String :=
  String.mk (((s.data.dropWhile (isPySpace ·)).reverse.dropWhile (isPySpace ·)).reverse)

/-- The `token.startswith("▁")` test. -/
def tokenStartsWithMarker (t : String) : Bool :=
  match t.data with
  | [] => false
  | c :: _ => c = '▁'

/-- The `token.replace("▁", " ")` step. -/
def tokenText (t : String) : String :=
  String.mk (t.data.map replaceMarker)

/-- The token loop of `_extract_words`: merge tokens into words at
word-boundary markers.  `cw` is `current_word`, `cs` is `current_start`, `lt`
is `last_time`; a word's `start` is the timestamp of its first token and its
provisional `end` is the next word's start timestamp (the final word ends at
`last_time`, or the duration when no timestamp was seen). -/
def buildRaw : List (String × ℚ) → String → Option ℚ → Option ℚ → ℚ → List Word
  | [], cw, cs, lt, dur =>
      if cw ≠ "" then [⟨cw, cs.getD 0, lt.getD dur⟩] else []
  | (tok, ts) :: rest, cw, cs, _lt, dur =>
      let txt := tokenText tok
      if tokenStartsWithMarker tok ∨ cw = "" then
        (if cw ≠ "" then [⟨cw, cs.getD 0, ts⟩] else []) ++
          buildRaw rest (pyStrip txt) (some ts) (some ts) dur
      else
        buildRaw rest (cw ++ txt) cs (some ts) dur

/-- The non-final fix-up loop: each non-final word's `end` becomes
`max(next word's start, own start + 0.05)`. -/
def fixMids : List Word → List Word
  | [] => []
  | [w] => [w]
  | w :: w2 :: rest =>
      { w with stop := max w2.start (w.start + 1/20) } :: fixMids (w2 :: rest)

/-- The final-word fix-up: with positive duration the last word ends at
`max(start + 0.05, duration)`, otherwise at `max(start + 0.05, end)`. -/
def fixLast (dur : ℚ) : List Word → List Word
  | [] => []
  | [w] =>
      [{ w with stop := if 0 < dur then max (w.start + 1/20) dur
                        else max (w.start + 1/20) w.stop }]
  | w :: w2 :: rest => w :: fixLast dur (w2 :: rest)

/-- The timestamped reconstruction of `_extract_words` before the
plausibility check: raw merge, empty-word filter, then both fix-up passes. -/
def reconstructWords (tokens : List (String × ℚ)) (dur : ℚ) : List Word :=
  fixLast dur (fixMids ((buildRaw tokens "" none none dur).filter (fun w => w.word ≠ "")))

/-- Embedding of `_extract_words`: fall back to `_fallback_words` when there
are no tokens, or when the reconstructed word count is implausibly low
(`len(words) < max(3, estimated // 4)` with a non-zero estimate). -/
def extractWords (tokens : List (String × ℚ)) (dur : ℚ) (fallbackText : String) :
    List Word :=
  if tokens.isEmpty then fallbackWords fallbackText dur
  else if estimateWordCount fallbackText ≠ 0 ∧
      (reconstructWords tokens dur).length <
        max 3 (estimateWordCount fallbackText / 4) then
    fallbackWords fallbackText dur
  else reconstructWords tokens dur

theorem fixMids_length : ∀ l : List Word, (fixMids l).length = l.length := by
  intro l
  induction l with
  | nil => rfl
  | cons w l ih =>
      cases l with
      | nil => rfl
      | cons w2 rest => simpa [fixMids] using ih

theorem fixLast_length (dur : ℚ) : ∀ l : List Word, (fixLast dur l).length = l.length := by
  intro l
  induction l with
  | nil => rfl
  | cons w l ih =>
      cases l with
      | nil => rfl
      | cons w2 rest => simpa [fixLast] using ih

theorem fixMids_map_start : ∀ l : List Word,
    (fixMids l).map (fun w => w.start) = l.map (fun w => w.start) := by
  intro l
  induction l with
  | nil => rfl
  | cons w l ih =>
      cases l with
      | nil => rfl
      | cons w2 rest => simpa [fixMids] using ih

theorem fixLast_map_start (dur : ℚ) : ∀ l : List Word,
    (fixLast dur l).map (fun w => w.start) = l.map (fun w => w.start) := by
  intro l
  induction l with
  | nil => rfl
  | cons w l ih =>
      cases l with
      | nil => rfl
      | cons w2 rest => simpa [fixLast] using ih

theorem fixMids_minDur : ∀ (l : List Word) (i : Nat) (w : Word),
    i + 1 < (fixMids l).length → (fixMids l)[i]? = some w →
    w.start + 1/20 ≤ w.stop := by
  intro l
  induction l with
  | nil => intro i w h _; simp [fixMids] at h
  | cons w0 l ih =>
      cases l with
      | nil => intro i w h _; simp [fixMids] at h
      | cons w1 rest =>
          intro i w hlen hget
          cases i with
          | zero =>
              simp only [fixMids, List.getElem?_cons_zero, Option.some.injEq] at hget
              subst hget
              exact le_max_right _ _
          | succ i =>
              simp only [fixMids, List.getElem?_cons_succ] at hget
              refine ih i w ?_ hget
              simpa [fixMids] using hlen

theorem fixLast_getElem?_of_lt (dur : ℚ) : ∀ (l : List Word) (i : Nat),
    i + 1 < l.length → (fixLast dur l)[i]? = l[i]? := by
  intro l
  induction l with
  | nil => intro i h; simp at h
  | cons w0 l ih =>
      cases l with
      | nil => intro i h; simp at h
      | cons w1 rest =>
          intro i h
          cases i with
          | zero => simp [fixLast]
          | succ i =>
              simp only [fixLast, List.getElem?_cons_succ]
              exact ih i (by simpa using h)

theorem buildRaw_start_mono :
    ∀ (toks : List (String × ℚ)) (cw : String) (s : ℚ) (lt : Option ℚ) (dur : ℚ),
      List.Pairwise (· ≤ ·) (toks.map Prod.snd) →
      (∀ t ∈ toks.map Prod.snd, s ≤ t) →
      List.Pairwise (· ≤ ·) ((buildRaw toks cw (some s) lt dur).map (fun w => w.start)) ∧
      ∀ w ∈ buildRaw toks cw (some s) lt dur, s ≤ w.start := by
  intro toks
  induction toks with
  | nil =>
      intro cw s lt dur _ _
      constructor
      · by_cases hcw : cw = "" <;> simp [buildRaw, hcw]
      · intro w hw
        by_cases hcw : cw = "" <;> simp [buildRaw, hcw] at hw
        rw [hw]
  | cons p rest ih =>
      intro cw s lt dur hpw hs
      obtain ⟨tok, ts⟩ := p
      have hts : s ≤ ts := hs ts (by simp)
      have hpw_rest : List.Pairwise (· ≤ ·) (rest.map Prod.snd) :=
        (List.pairwise_cons.mp (by simpa using hpw)).2
      have hts_rest : ∀ t ∈ rest.map Prod.snd, ts ≤ t :=
        (List.pairwise_cons.mp (by simpa using hpw)).1
      have hs_rest : ∀ t ∈ rest.map Prod.snd, s ≤ t :=
        fun t ht => hs t (by simp [ht])
      by_cases hbr : tokenStartsWithMarker tok ∨ cw = ""
      · have ihA := ih (pyStrip (tokenText tok)) ts (some ts) dur hpw_rest hts_rest
        by_cases hcw : cw = ""
        · have hout : buildRaw ((tok, ts) :: rest) cw (some s) lt dur =
              buildRaw rest (pyStrip (tokenText tok)) (some ts) (some ts) dur := by
            simp [buildRaw, hbr, hcw]
          rw [hout]
          exact ⟨ihA.1, fun w hw => le_trans hts (ihA.2 w hw)⟩
        · have hmk : tokenStartsWithMarker tok = true := hbr.resolve_right hcw
          have hout : buildRaw ((tok, ts) :: rest) cw (some s) lt dur =
              ⟨cw, s, ts⟩ ::
                buildRaw rest (pyStrip (tokenText tok)) (some ts) (some ts) dur := by
            simp [buildRaw, hmk, hcw]
          rw [hout]
          constructor
          · rw [List.map_cons, List.pairwise_cons]
            refine ⟨?_, ihA.1⟩
            intro a ha
            simp only [List.mem_map] at ha
            obtain ⟨w, hw, rfl⟩ := ha
            exact le_trans hts (ihA.2 w hw)
          · intro w hw
            rcases List.mem_cons.mp hw with rfl | hw
            · exact le_rfl
            · exact le_trans hts (ihA.2 w hw)
      · have hout : buildRaw ((tok, ts) :: rest) cw (some s) lt dur =
            buildRaw rest (cw ++ tokenText tok) (some s) (some ts) dur := by
          simp [buildRaw, hbr]
        rw [hout]
        exact ih (cw ++ tokenText tok) s (some ts) dur hpw_rest hs_rest

theorem buildRaw_top_start_mono (toks : List (String × ℚ)) (dur : ℚ)
    (hpw : List.Pairwise (· ≤ ·) (toks.map Prod.snd)) :
    List.Pairwise (· ≤ ·) ((buildRaw toks "" none none dur).map (fun w => w.start)) := by
  cases toks with
  | nil => simp [buildRaw]
  | cons p rest =>
      obtain ⟨tok, ts⟩ := p
      have hout : buildRaw ((tok, ts) :: rest) "" none none dur =
          buildRaw rest (pyStrip (tokenText tok)) (some ts) (some ts) dur := by
        simp [buildRaw]
      rw [hout]
      have hpw_rest : List.Pairwise (· ≤ ·) (rest.map Prod.snd) :=
        (List.pairwise_cons.mp (by simpa using hpw)).2
      have hts_rest : ∀ t ∈ rest.map Prod.snd, ts ≤ t :=
        (List.pairwise_cons.mp (by simpa using hpw)).1
      exact (buildRaw_start_mono rest (pyStrip (tokenText tok)) ts (some ts) dur
        hpw_rest hts_rest).1

/-- C4 (amended): word reconstruction from a non-empty token stream with
non-decreasing timestamps yields non-decreasing `start` values and
`end ≥ start + 0.05` for every non-final word, provided the timestamped
reconstruction is not discarded in favour of the whitespace fallback by the
plausibility check (`len(words) < max(3, estimated // 4)`). -/
theorem c4_extract_words_monotone (tokens : List (String × ℚ)) (dur : ℚ) (text : String)
    (hne : tokens.isEmpty = false)
    (hts : List.Pairwise (· ≤ ·) (tokens.map Prod.snd))
    (hplaus : ¬ (estimateWordCount text ≠ 0 ∧
      (reconstructWords tokens dur).length < max 3 (estimateWordCount text / 4))) :
    extractWords tokens dur text = reconstructWords tokens dur ∧
    List.Pairwise (· ≤ ·) ((extractWords tokens dur text).map (fun w => w.start)) ∧
    (∀ i w, i + 1 < (extractWords tokens dur text).length →
      (extractWords tokens dur text)[i]? = some w → w.start + 1/20 ≤ w.stop) := by
  have heq : extractWords tokens dur text = reconstructWords tokens dur := by
    rw [extractWords, hne]
    simp only [Bool.false_eq_true, if_false]
    exact if_neg hplaus
  refine ⟨heq, ?_, ?_⟩
  · rw [heq, reconstructWords, fixLast_map_start, fixMids_map_start]
    have hsub : List.Sublist
        (((buildRaw tokens "" none none dur).filter
          (fun w => w.word ≠ "")).map (fun w => w.start))
        ((buildRaw tokens "" none none dur).map (fun w => w.start)) :=
      (List.filter_sublist (buildRaw tokens "" none none dur)).map
        (fun (w : Word) => w.start)
    exact (buildRaw_top_start_mono tokens dur hts).sublist hsub
  · intro i w hlen hget
    rw [heq] at hlen hget
    rw [reconstructWords] at hlen hget
    rw [fixLast_length] at hlen
    rw [fixLast_getElem?_of_lt dur _ i hlen] at hget
    exact fixMids_minDur _ i w hlen hget

/-- C4 witness: three marker-led tokens with timestamps `0, 1, 2` over 3s —
the reconstruction is kept (3 words against an estimate of 3) and the start
values are non-decreasing. -/
theorem c4_extract_words_monotone_witness :
    List.Pairwise (· ≤ ·)
      ((extractWords [("▁a", (0 : ℚ)), ("▁b", 1), ("▁c", 2)] 3 "a b c").map
        (fun w => w.start)) := by
  have hlen : (reconstructWords [("▁a", (0 : ℚ)), ("▁b", 1), ("▁c", 2)] 3).length = 3 := by
    rw [reconstructWords, fixLast_length, fixMids_length]
    rfl
  refine ((c4_extract_words_monotone [("▁a", (0 : ℚ)), ("▁b", 1), ("▁c", 2)] 3 "a b c"
    rfl ?_ ?_).2).1
  · simp only [List.map_cons, List.map_nil, List.pairwise_cons, List.mem_cons,
      List.mem_singleton, List.not_mem_nil]
    norm_num
  · intro hcontra
    rw [hlen] at hcontra
    have hest : estimateWordCount "a b c" = 3 := rfl
    rw [hest] at hcontra
    norm_num at hcontra

/-- C4 counterexample: tokens with non-decreasing timestamps whose
reconstruction is discarded by the plausibility check — the fallback output
gives the first (non-final) word the span `[0, 0.01)`, violating
`end ≥ start + 0.05`. -/
theorem c4_min_duration_counterexample :
    List.Pairwise (· ≤ ·) (([("▁a", (0 : ℚ)), ("▁b", 1/20)]).map Prod.snd) ∧
    ¬ (∀ i w,
        i + 1 < (extractWords [("▁a", (0 : ℚ)), ("▁b", 1/20)] (3/25)
            "a b c d e f g h i j k l").length →
        (extractWords [("▁a", (0 : ℚ)), ("▁b", 1/20)] (3/25)
            "a b c d e f g h i j k l")[i]? = some w →
        w.start + 1/20 ≤ w.stop) := by
  have hlen2 : (reconstructWords [("▁a", (0 : ℚ)), ("▁b", 1/20)] (3/25)).length = 2 := by
    rw [reconstructWords, fixLast_length, fixMids_length]
    rfl
  have hest : estimateWordCount "a b c d e f g h i j k l" = 12 := rfl
  have hfb : extractWords [("▁a", (0 : ℚ)), ("▁b", 1/20)] (3/25)
      "a b c d e f g h i j k l" =
      fallbackWords "a b c d e f g h i j k l" (3/25) := by
    have hcond : estimateWordCount "a b c d e f g h i j k l" ≠ 0 ∧
        (reconstructWords [("▁a", (0 : ℚ)), ("▁b", 1/20)] (3/25)).length <
          max 3 (estimateWordCount "a b c d e f g h i j k l" / 4) := by
      rw [hest, hlen2]
      norm_num
    rw [extractWords,
      if_neg (by decide :
        ¬ (([("▁a", (0 : ℚ)), ("▁b", 1/20)] : List (String × ℚ)).isEmpty = true)),
      if_pos hcond]
  have hlen12 : (pyTokens (cleanText "a b c d e f g h i j k l")).length = 12 := rfl
  have h0 := ((c5_fallback_uniform "a b c d e f g h i j k l" (3/25) (by decide)).1
    (by norm_num)).1 0 "a" (by decide) (by decide)
  rw [hlen12] at h0
  norm_num at h0
  have hplen : (fallbackWords "a b c d e f g h i j k l" (3/25)).length = 12 := by
    rw [fallbackWords_length, hlen12]
  constructor
  · simp only [List.map_cons, List.map_nil, List.pairwise_cons, List.mem_cons,
      List.mem_singleton, List.not_mem_nil]
    norm_num
  · intro h
    have hw := h 0 ⟨"a", 0, 1/100⟩ (by rw [hfb, hplen]; norm_num) (by rw [hfb]; exact h0)
    norm_num at hw

/-! ### Segmentation (`_build_segments_from_words`) -/

/-- Embedding of `_join_words`: join the non-empty word texts with single
spaces and clean the result. -/
def joinWords (ws : List Word) : String :=
  cleanText (String.intercalate " " ((ws.filter (fun w => w.word ≠ "")).map
    (fun w => w.word)))

/-- Embedding of `_is_sentence_end`: the last non-whitespace character is
`.`, `!` or `?`. -/
def isSentenceEnd (t : String) : Bool :=
  match t.data.reverse.dropWhile (isPySpace ·) with
  | [] => false
  | c :: _ => c = '.' || c = '!' || c = '?'

/-- The word loop of `_build_segments_from_words`.  `segWords` is the open
segment (non-empty), `segStart` its start, `lastEnd` the previous word's end.
A break happens when the silence gap exceeds 1.2s, the candidate duration
(including the incoming word) exceeds 8.0s, the candidate joined text exceeds
80 characters, or the previous word ends a sentence and the candidate
duration is at least 1.0s. -/
def segGo : List Word → List Word → ℚ → ℚ → List TransSeg
  | [], segWords, segStart, lastEnd => [⟨segStart, lastEnd, joinWords segWords⟩]
  | w :: rest, segWords, segStart, lastEnd =>
      let gap := w.start - lastEnd
      let candText := joinWords (segWords ++ [w])
      let segDur := w.stop - segStart
      if gap > 6/5 ∨ segDur > 8 ∨ candText.length > 80 ∨
          (isSentenceEnd ((segWords.getLast?.map (fun u => u.word)).getD "") = true ∧
            segDur ≥ 1) then
        ⟨segStart, lastEnd, joinWords segWords⟩ :: segGo rest [w] w.start w.stop
      else segGo rest (segWords ++ [w]) segStart w.stop

/-- Embedding of `_build_segments_from_words`: no words but non-empty raw
text yields one whole-duration segment; otherwise fold the words. -/
def buildSegmentsFromWords (words : List Word) (rawText : String) (dur : ℚ) :
    List TransSeg :=
  match words with
  | [] => if rawText ≠ "" then [⟨0, dur, rawText⟩] else []
  | w :: rest => segGo rest [w] w.start w.stop

/-- The segmentation fold exactly as the claim words rule (iv): the sentence
break compares the OPEN segment's duration (`lastEnd - segStart`, before the
incoming word) against 1.0s. -/
def claimSegGo : List Word → List Word → ℚ → ℚ → List TransSeg
  | [], segWords, segStart, lastEnd => [⟨segStart, lastEnd, joinWords segWords⟩]
  | w :: rest, segWords, segStart, lastEnd =>
      let gap := w.start - lastEnd
      let candText := joinWords (segWords ++ [w])
      let segDur := w.stop - segStart
      if gap > 6/5 ∨ segDur > 8 ∨ candText.length > 80 ∨
          (isSentenceEnd ((segWords.getLast?.map (fun u => u.word)).getD "") = true ∧
            lastEnd - segStart ≥ 1) then
        ⟨segStart, lastEnd, joinWords segWords⟩ :: claimSegGo rest [w] w.start w.stop
      else claimSegGo rest (segWords ++ [w]) segStart w.stop

/-- Segment builder as the claim words it (rule (iv) over the open segment's
duration). -/
def claimBuildSegments (words : List Word) (rawText : String) (dur : ℚ) :
    List TransSeg :=
  match words with
  | [] => if rawText ≠ "" then [⟨0, dur, rawText⟩] else []
  | w :: rest => claimSegGo rest [w] w.start w.stop

/-- Segmentation fold as the amended specification words it: rule (iv) breaks
when the previous word ends a sentence and the segment's duration including
the incoming word (its end minus the open segment's start) is ≥ 1.0s. -/
def specSegGo : List Word → List Word → ℚ → ℚ → List TransSeg
  | [], segWords, segStart, lastEnd => [⟨segStart, lastEnd, joinWords segWords⟩]
  | w :: rest, segWords, segStart, lastEnd =>
      let gap := w.start - lastEnd
      let candText := joinWords (segWords ++ [w])
      let segDur := w.stop - segStart
      if gap > 6/5 ∨ segDur > 8 ∨ candText.length > 80 ∨
          (isSentenceEnd ((segWords.getLast?.map (fun u => u.word)).getD "") = true ∧
            segDur ≥ 1) then
        ⟨segStart, lastEnd, joinWords segWords⟩ :: specSegGo rest [w] w.start w.stop
      else specSegGo rest (segWords ++ [w]) segStart w.stop

/-- Amended-specification segment builder. -/
def specBuildSegments (words : List Word) (rawText : String) (dur : ℚ) :
    List TransSeg :=
  match words with
  | [] => if rawText ≠ "" then [⟨0, dur, rawText⟩] else []
  | w :: rest => specSegGo rest [w] w.start w.stop

theorem segGo_eq_specSegGo : ∀ (rest segWords : List Word) (segStart lastEnd : ℚ),
    segGo rest segWords segStart lastEnd = specSegGo rest segWords segStart lastEnd := by
  intro rest
  induction rest with
  | nil => intro s a b; rfl
  | cons w rest ih =>
      intro s a b
      simp only [segGo, specSegGo]
      split_ifs with h
      · rw [ih]
      · rw [ih]

/-- C3 counterexample: with words `Hi.` spanning `[0,0]` and `there` spanning
`[0,1]` the code breaks at the sentence end (candidate duration `1 ≥ 1.0`)
while the claim's rule (iv) (open-segment duration `0 < 1.0`) would keep one
segment — the two folds disagree. -/
theorem c3_sentence_rule_counterexample :
    buildSegmentsFromWords [⟨"Hi.", 0, 0⟩, ⟨"there", 0, 1⟩] "" 2 =
      [⟨0, 0, "Hi."⟩, ⟨0, 1, "there"⟩] ∧
    claimBuildSegments [⟨"Hi.", 0, 0⟩, ⟨"there", 0, 1⟩] "" 2 =
      [⟨0, 1, "Hi. there"⟩] ∧
    buildSegmentsFromWords [⟨"Hi.", 0, 0⟩, ⟨"there", 0, 1⟩] "" 2 ≠
      claimBuildSegments [⟨"Hi.", 0, 0⟩, ⟨"there", 0, 1⟩] "" 2 := by
  have hjl : (joinWords [⟨"Hi.", 0, 0⟩, ⟨"there", 0, 1⟩]).length = 9 := rfl
  have hse : isSentenceEnd
      ((([(⟨"Hi.", 0, 0⟩ : Word)].getLast?.map (fun u => u.word)).getD "")) = true := rfl
  have hj1 : joinWords [⟨"Hi.", 0, 0⟩] = "Hi." := rfl
  have hj2 : joinWords [⟨"there", 0, 1⟩] = "there" := rfl
  have hj12 : joinWords [⟨"Hi.", 0, 0⟩, ⟨"there", 0, 1⟩] = "Hi. there" := rfl
  have hcode : buildSegmentsFromWords [⟨"Hi.", 0, 0⟩, ⟨"there", 0, 1⟩] "" 2 =
      [⟨0, 0, "Hi."⟩, ⟨0, 1, "there"⟩] := by
    rw [buildSegmentsFromWords]
    simp only [segGo, List.cons_append, List.nil_append, List.singleton_append,
      hjl, hse, hj1, hj2]
    norm_num
  have hclaim : claimBuildSegments [⟨"Hi.", 0, 0⟩, ⟨"there", 0, 1⟩] "" 2 =
      [⟨0, 1, "Hi. there"⟩] := by
    rw [claimBuildSegments]
    simp only [claimSegGo, List.cons_append, List.nil_append, List.singleton_append,
      hjl, hse, hj12]
    norm_num
    decide
  refine ⟨hcode, hclaim, ?_⟩
  rw [hcode, hclaim]
  intro h
  simpa using congrArg List.length h

/-- C3 (amended): the segmenter equals the fold whose break rule is: gap
`> 1.2s`, candidate duration `> 8.0s`, candidate joined text `> 80` chars, or
previous word ends a sentence and the duration including the incoming word is
`≥ 1.0s` (the only change from the claim: rule (iv) uses the duration
including the incoming word, not the open segment's current duration); a 2.0s
gap yields two segments with the boundary exactly at the gap, and joined text
first exceeding 80 characters at word 4 closes the segment at word 3. -/
theorem c3_segmenter_fold_rules :
    (∀ (words : List Word) (rawText : String) (dur : ℚ),
      buildSegmentsFromWords words rawText dur = specBuildSegments words rawText dur) ∧
    buildSegmentsFromWords [⟨"hello", 0, 1/2⟩, ⟨"world", 5/2, 3⟩] "" 3 =
      [⟨0, 1/2, "hello"⟩, ⟨5/2, 3, "world"⟩] ∧
    buildSegmentsFromWords
        [⟨"abcdefghijklmnopqrstuvwxyz", 0, 0⟩, ⟨"abcdefghijklmnopqrstuvwxyz", 1, 1⟩,
         ⟨"abcdefghijklmnopqrstuvwxyz", 2, 2⟩, ⟨"abcdefghijklmnopqrstuvwxyz", 3, 3⟩]
        "" 4 =
      [⟨0, 2,
        "abcdefghijklmnopqrstuvwxyz abcdefghijklmnopqrstuvwxyz abcdefghijklmnopqrstuvwxyz"⟩,
       ⟨3, 3, "abcdefghijklmnopqrstuvwxyz"⟩] := by
  refine ⟨?_, ?_, ?_⟩
  · intro words rawText dur
    cases words with
    | nil => rfl
    | cons w rest =>
        rw [buildSegmentsFromWords, specBuildSegments]
        exact segGo_eq_specSegGo rest [w] w.start w.stop
  · have hjh : joinWords [⟨"hello", 0, 1/2⟩] = "hello" := rfl
    have hjw : joinWords [⟨"world", 5/2, 3⟩] = "world" := rfl
    rw [buildSegmentsFromWords]
    simp only [segGo, List.cons_append, List.nil_append, hjh, hjw]
    norm_num
  · have hl2 : (joinWords [⟨"abcdefghijklmnopqrstuvwxyz", 0, 0⟩,
        ⟨"abcdefghijklmnopqrstuvwxyz", 1, 1⟩]).length = 53 := rfl
    have hl3 : (joinWords [⟨"abcdefghijklmnopqrstuvwxyz", 0, 0⟩,
        ⟨"abcdefghijklmnopqrstuvwxyz", 1, 1⟩,
        ⟨"abcdefghijklmnopqrstuvwxyz", 2, 2⟩]).length = 80 := rfl
    have hl4 : (joinWords [⟨"abcdefghijklmnopqrstuvwxyz", 0, 0⟩,
        ⟨"abcdefghijklmnopqrstuvwxyz", 1, 1⟩, ⟨"abcdefghijklmnopqrstuvwxyz", 2, 2⟩,
        ⟨"abcdefghijklmnopqrstuvwxyz", 3, 3⟩]).length = 107 := rfl
    have hs1 : isSentenceEnd
        ((([(⟨"abcdefghijklmnopqrstuvwxyz", 0, 0⟩ : Word)].getLast?.map
          (fun u => u.word)).getD "")) = false := rfl
    have hs2 : isSentenceEnd
        ((([(⟨"abcdefghijklmnopqrstuvwxyz", 0, 0⟩ : Word),
            ⟨"abcdefghijklmnopqrstuvwxyz", 1, 1⟩].getLast?.map
          (fun u => u.word)).getD "")) = false := rfl
    have hs3 : isSentenceEnd
        ((([(⟨"abcdefghijklmnopqrstuvwxyz", 0, 0⟩ : Word),
            ⟨"abcdefghijklmnopqrstuvwxyz", 1, 1⟩,
            ⟨"abcdefghijklmnopqrstuvwxyz", 2, 2⟩].getLast?.map
          (fun u => u.word)).getD "")) = false := rfl
    have hjv3 : joinWords [⟨"abcdefghijklmnopqrstuvwxyz", 0, 0⟩,
        ⟨"abcdefghijklmnopqrstuvwxyz", 1, 1⟩, ⟨"abcdefghijklmnopqrstuvwxyz", 2, 2⟩] =
        "abcdefghijklmnopqrstuvwxyz abcdefghijklmnopqrstuvwxyz abcdefghijklmnopqrstuvwxyz" :=
      rfl
    have hjv4 : joinWords [⟨"abcdefghijklmnopqrstuvwxyz", 3, 3⟩] =
        "abcdefghijklmnopqrstuvwxyz" := rfl
    rw [buildSegmentsFromWords]
    simp only [segGo, List.cons_append, List.nil_append, hl2, hl3, hl4, hs1, hs2, hs3,
      hjv3, hjv4]
    norm_num
    decide

/-! ### Job queue (`app/task_queue.py`)

`TaskQueue` wraps `asyncio.Queue(maxsize)`; `enqueue` uses `put_nowait`,
which raises `QueueFull` exactly when the queue is full (`maxsize > 0` and
`qsize() >= maxsize`), and `enqueue` turns that exception into `False`.
-/

/-- The queue state: pending jobs in FIFO order plus the fixed capacity. -/
structure PyQueue (α : Type) where
  items : List α
  maxsize : Nat

/-- The `asyncio.Queue.full()` test (`maxsize <= 0` means unbounded). -/
def queueFull {α : Type} (q : PyQueue α) : Bool :=
  decide (0 < q.maxsize) && decide (q.maxsize ≤ q.items.length)

/-- Embedding of `TaskQueue.enqueue`: non-blocking insert, `false` when
full. -/
def enqueue {α : Type} (q : PyQueue α) (job : α) : Bool × PyQueue α :=
  if queueFull q then (false, q)
  else (true, { q with items := q.items ++ [job] })

/-- C9: at capacity (`maxsize` jobs held, bounded queue) `enqueue` returns
`false` and leaves the queue unchanged; below capacity it appends the job and
returns `true`. -/
theorem c9_enqueue_bounded {α : Type} (q : PyQueue α) (job : α) :
    (q.items.length = q.maxsize → 0 < q.maxsize →
      (enqueue q job).1 = false ∧ (enqueue q job).2 = q) ∧
    (q.items.length < q.maxsize →
      (enqueue q job).1 = true ∧
      (enqueue q job).2.items = q.items ++ [job] ∧
      (enqueue q job).2.maxsize = q.maxsize) := by
  constructor
  · intro hlen hpos
    have hfull : queueFull q = true := by
      simp [queueFull, hpos, hlen]
    simp [enqueue, hfull]
  · intro hlt
    have hfull : queueFull q = false := by
      simp only [queueFull]
      have : ¬ q.maxsize ≤ q.items.length := not_le.mpr hlt
      simp [this]
    simp [enqueue, hfull]

/-- C9 witness: a queue of capacity 1 holding one job rejects without change;
an empty queue of capacity 1 accepts. -/
theorem c9_enqueue_bounded_witness :
    (enqueue (PyQueue.mk ["a"] 1) "b").1 = false ∧
    (enqueue (PyQueue.mk ["a"] 1) "b").2 = PyQueue.mk ["a"] 1 ∧
    (enqueue (PyQueue.mk ([] : List String) 1) "a").1 = true ∧
    (enqueue (PyQueue.mk ([] : List String) 1) "a").2.items = ["a"] := by
  have h1 := (c9_enqueue_bounded (PyQueue.mk ["a"] 1) "b").1 rfl (by norm_num)
  have h2 := (c9_enqueue_bounded (PyQueue.mk ([] : List String) 1) "a").2 (by norm_num)
  exact ⟨h1.1, h1.2, h2.1, h2.2.1⟩

/-! ### Task state store (`app/task_store.py`) -/

/-- The fields of the dataclass `TaskState`.  `result` is abstracted to a
string payload (its contents are never inspected by the store). -/
structure TaskStateM where
  task_id : String
  status : String
  progress : Int
  step : String
  result : Option String
  error : Option String
  created_at : ℚ
  updated_at : ℚ
  deriving Repr, DecidableEq

/-- The backing map of `TaskStore` (`dict` guarded by a mutex; operations are
modelled as atomic). -/
def TaskStore := String → Option TaskStateM

/-- Embedding of `TaskStore.get`: `dict.get`, total, `none` for an absent
id. -/
def storeGet (s : TaskStore) (id : String) : Option TaskStateM := s id

/-- The field mutation of `TaskStore.update`: each field changes only when
the corresponding argument is provided (`is not None`), and `updated_at` is
always refreshed to the current time `now`. -/
def applyUpdate (st : TaskStateM) (status : Option String) (progress : Option Int)
    (step : Option String) (result : Option String) (error : Option String)
    (now : ℚ) : TaskStateM :=
  { st with
    status := status.getD st.status
    progress := progress.getD st.progress
    step := step.getD st.step
    result := match result with | some r => some r | none => st.result
    error := match error with | some e => some e | none => st.error
    updated_at := now }

/-- Embedding of `TaskStore.update`: absent id returns `None` and leaves the
map unchanged; otherwise the state is mutated in place. -/
def storeUpdate (s : TaskStore) (id : String) (status : Option String)
    (progress : Option Int) (step : Option String) (result : Option String)
    (error : Option String) (now : ℚ) : Option TaskStateM × TaskStore :=
  match s id with
  | none => (none, s)
  | some st =>
      (some (applyUpdate st status progress step result error now),
       fun k => if k = id then some (applyUpdate st status progress step result error now)
                else s k)

/-- C10: `get` on an absent id returns an explicit absent value and `update`
on an absent id returns absent leaving the store unchanged; on a present id
`update` changes exactly the provided fields plus `updated_at` (always set to
the clock value), keeps `task_id`/`created_at` and every unprovided field,
and leaves every other task's state untouched. -/
theorem c10_store_update_frame (s : TaskStore) (id : String)
    (status : Option String) (progress : Option Int) (step : Option String)
    (result : Option String) (error : Option String) (now : ℚ) :
    (s id = none → storeGet s id = none ∧
      storeUpdate s id status progress step result error now = (none, s)) ∧
    (∀ st, s id = some st →
      (storeUpdate s id status progress step result error now).1 =
        some (applyUpdate st status progress step result error now) ∧
      (storeUpdate s id status progress step result error now).2 id =
        some (applyUpdate st status progress step result error now) ∧
      (∀ k, k ≠ id →
        (storeUpdate s id status progress step result error now).2 k = s k) ∧
      (applyUpdate st status progress step result error now).updated_at = now ∧
      (applyUpdate st status progress step result error now).task_id = st.task_id ∧
      (applyUpdate st status progress step result error now).created_at =
        st.created_at ∧
      (status = none →
        (applyUpdate st status progress step result error now).status = st.status) ∧
      (∀ v, status = some v →
        (applyUpdate st status progress step result error now).status = v) ∧
      (progress = none →
        (applyUpdate st status progress step result error now).progress =
          st.progress) ∧
      (∀ v, progress = some v →
        (applyUpdate st status progress step result error now).progress = v) ∧
      (step = none →
        (applyUpdate st status progress step result error now).step = st.step) ∧
      (∀ v, step = some v →
        (applyUpdate st status progress step result error now).step = v) ∧
      (result = none →
        (applyUpdate st status progress step result error now).result = st.result) ∧
      (∀ v, result = some v →
        (applyUpdate st status progress step result error now).result = some v) ∧
      (error = none →
        (applyUpdate st status progress step result error now).error = st.error) ∧
      (∀ v, error = some v →
        (applyUpdate st status progress step result error now).error = some v)) := by
  constructor
  · intro h
    constructor
    · exact h
    · rw [storeUpdate, h]
  · intro st h
    rw [storeUpdate, h]
    refine ⟨rfl, by simp, fun k hk => by simp [hk], rfl, rfl, rfl, ?_, ?_, ?_, ?_, ?_,
      ?_, ?_, ?_, ?_, ?_⟩
    · intro hv; simp [applyUpdate, hv]
    · intro v hv; simp [applyUpdate, hv]
    · intro hv; simp [applyUpdate, hv]
    · intro v hv; simp [applyUpdate, hv]
    · intro hv; simp [applyUpdate, hv]
    · intro v hv; simp [applyUpdate, hv]
    · intro hv; simp [applyUpdate, hv]
    · intro v hv; simp [applyUpdate, hv]
    · intro hv; simp [applyUpdate, hv]
    · intro v hv; simp [applyUpdate, hv]

/-- C10 witness: a one-task store — updating the present id changes the
status and refreshes `updated_at` only, an absent id is returned as `none`
with the store unchanged, and the other task id stays untouched. -/
theorem c10_store_update_frame_witness :
    (storeUpdate (fun k => if k = "t" then some (TaskStateM.mk "t" "pending" 0 "" none none 0 0)
        else none) "t" (some "processing") none none none none 5).1 =
      some (TaskStateM.mk "t" "processing" 0 "" none none 0 5) ∧
    (storeUpdate (fun k => if k = "t" then some (TaskStateM.mk "t" "pending" 0 "" none none 0 0)
        else none) "t" (some "processing") none none none none 5).2 "u" = none ∧
    storeGet (fun k => if k = "t" then some (TaskStateM.mk "t" "pending" 0 "" none none 0 0)
        else none) "missing" = none := by
  have h := (c10_store_update_frame
    (fun k => if k = "t" then some (TaskStateM.mk "t" "pending" 0 "" none none 0 0) else none)
    "t" (some "processing") none none none none 5).2
    (TaskStateM.mk "t" "pending" 0 "" none none 0 0) (by simp)
  have habs := (c10_store_update_frame
    (fun k => if k = "t" then some (TaskStateM.mk "t" "pending" 0 "" none none 0 0) else none)
    "missing" (some "processing") none none none none 5).1 (by simp)
  refine ⟨?_, ?_, habs.1⟩
  · rw [h.1]
    rfl
  · exact h.2.2.1 "u" (by simp)

/-! ### Pipeline orchestrator (`tasks/transcription_task.py`)

`process_transcription` is modelled as an event trace over abstract
collaborator outcomes.  An `AttemptSpec` fixes, for one attempt, whether the
uploaded file exists and whether each collaborator call (ffmpeg extraction /
conversion, transcription, diarization, result saving) succeeds or raises
with a message.  The file kind stands for `Path(file_path).suffix.lower()`:
a video container, already `.wav`, or another audio format.
-/

/-- Observable actions of one `process_transcription` run, in order:
task-store updates (`status`/`progress`/`step` as passed), `set_result`,
`set_error`, file cleanup (`cleanup_files`), the retry sleep, the diarization
engine call with its forwarded speaker-count hints, the local JSON result
write, and (never emitted by this code) a call of the persistence store's
`update_transcription`. -/
inductive Ev where
  | upd (status : Option String) (progress : Option Nat) (step : Option String)
  | setRes
  | setErr (msg : String)
  | clean (paths : List String)
  | sleepEv (secs : Nat)
  | callDiarize (path : String) (numSpeakers minSpeakers maxSpeakers : Option Nat)
  | writeJson (taskId : String)
  | dbUpdate (taskId : String)
  deriving Repr, DecidableEq

/-- File kind as decided by `Path(file_path).suffix.lower()`. -/
inductive FKind where
  | video
  | wav
  | other
  deriving Repr, DecidableEq

/-- Outcomes of the collaborator calls during one processing attempt. -/
structure AttemptSpec where
  fileExists : Bool
  extract : Except String Unit
  convert : Except String Unit
  transcribe : Except String Unit
  diarize : Except String Unit
  save : Except String Unit

/-- Drop the extension after the last dot (`Path(p).with_suffix('')` for the
paths this service builds). -/
def dropLastExt (fp : String) : String :=
  let r := fp.data.reverse
  if r.any (fun c => c = '.') then
    String.mk ((r.dropWhile (fun c => c ≠ '.')).drop 1).reverse
  else fp

/-- Embedding of `get_audio_output_path`. -/
def audioOutPath (fp suffix ext : String) : String :=
  dropLastExt fp ++ suffix ++ ext

/-- The tail of one attempt from the transcription step on: 30% update,
transcribe; 60% update and the unconditional `diarize(audio_path)` call (no
speaker-count hints are forwarded); 80% update, local JSON write; on success
cleanup of temp files plus the upload, then `set_result`. -/
def attemptAfterPrep (a : AttemptSpec) (fp taskId : String) (evs : List Ev)
    (audioPath : String) (temps : List String) :
    List Ev × Option String × List String :=
  let e2 := evs ++ [Ev.upd (some "processing") (some 30) (some "Transcribing audio")]
  match a.transcribe with
  | Except.error msg => (e2, some msg, temps)
  | Except.ok _ =>
      let e3 := e2 ++
        [Ev.upd (some "processing") (some 60) (some "Performing speaker diarization"),
         Ev.callDiarize audioPath none none none]
      match a.diarize with
      | Except.error msg => (e3, some msg, temps)
      | Except.ok _ =>
          let e4 := e3 ++ [Ev.upd (some "processing") (some 80) (some "Saving results"),
                           Ev.writeJson taskId]
          match a.save with
          | Except.error msg => (e4, some msg, temps)
          | Except.ok _ => (e4 ++ [Ev.clean (temps ++ [fp]), Ev.setRes], none, temps)

/-- One attempt of the `for attempt in range(max_retries+1)` loop: the 10%
"Preparing file" update, the existence check, video extraction or audio
conversion (registering the produced temp file), then `attemptAfterPrep`.
Returns the events, the raised error message (`none` on success) and the temp
files registered so far. -/
def attemptRun (kind : FKind) (a : AttemptSpec) (fp taskId : String) :
    List Ev × Option String × List String :=
  let e0 : List Ev := [Ev.upd (some "processing") (some 10) (some "Preparing file")]
  if a.fileExists = false then
    (e0, some ("File not found: " ++ fp), [])
  else
    match kind with
    | FKind.video =>
        let e1 := e0 ++
          [Ev.upd (some "processing") (some 20) (some "Extracting audio from video")]
        match a.extract with
        | Except.error msg => (e1, some msg, [])
        | Except.ok _ =>
            attemptAfterPrep a fp taskId e1 (audioOutPath fp "_audio" ".wav")
              [audioOutPath fp "_audio" ".wav"]
    | FKind.wav => attemptAfterPrep a fp taskId e0 fp []
    | FKind.other =>
        let e1 := e0 ++
          [Ev.upd (some "processing") (some 20) (some "Converting audio format")]
        match a.convert with
        | Except.error msg => (e1, some msg, [])
        | Except.ok _ =>
            attemptAfterPrep a fp taskId e1 (audioOutPath fp "_converted" ".wav")
              [audioOutPath fp "_converted" ".wav"]

/-- The step label of the retry re-entry update,
`f"Retrying transcription ({attempt + 1}/{max_retries})"`. -/
def retryLabel (n maxR : Nat) : String :=
  "Retrying transcription (" ++ toString n ++ "/" ++ toString maxR ++ ")"

/-- The retry loop over the remaining attempts (`r` attempts left, current
attempt index `i`): a failed attempt cleans its temp files; below the retry
limit it emits the retry re-entry update and sleeps, otherwise it deletes the
uploaded file and calls `set_error` with the final message. -/
def processGo (kind : FKind) (env : Nat → AttemptSpec) (fp taskId : String)
    (maxR delay : Nat) : Nat → Nat → List Ev
  | 0, _ => []
  | r + 1, i =>
      match attemptRun kind (env i) fp taskId with
      | (evs, none, _) => evs
      | (evs, some msg, temps) =>
          match r with
          | 0 => evs ++ [Ev.clean temps, Ev.clean [fp], Ev.setErr msg]
          | _ + 1 =>
              evs ++ [Ev.clean temps,
                      Ev.upd (some "processing") none (some (retryLabel (i + 1) maxR)),
                      Ev.sleepEv delay] ++
                processGo kind env fp taskId maxR delay r (i + 1)

/-- Event trace of `process_transcription(file_path, task_id, ...,
max_retries, retry_delay_s)` with per-attempt collaborator outcomes `env`. -/
def processTranscription (kind : FKind) (env : Nat → AttemptSpec)
    (fp taskId : String) (maxR delay : Nat) : List Ev :=
  processGo kind env fp taskId maxR delay (maxR + 1) 0

/-- Number of trace events satisfying `p`. -/
def countEv (p : Ev → Bool) (tr : List Ev) : Nat :=
  (tr.filter p).length

/-- The attempt-start update (`status="processing", progress=10,
step="Preparing file"`). -/
def isPrepEv (e : Ev) : Bool :=
  decide (e = Ev.upd (some "processing") (some 10) (some "Preparing file"))

/-- Any task-store update that sets `status="processing"`. -/
def isProcessingUpd (e : Ev) : Bool :=
  match e with
  | Ev.upd (some s) _ _ => decide (s = "processing")
  | _ => false

/-- Whether the event is a call of the persistence store's
`update_transcription`. -/
def isDbUpdateEv (e : Ev) : Bool :=
  match e with
  | Ev.dbUpdate _ => true
  | _ => false

/-- Step labels of the processing updates that carry no progress value —
exactly the retry re-entry updates of the orchestrator. -/
def retrySteps (tr : List Ev) : List String :=
  tr.filterMap fun e =>
    match e with
    | Ev.upd (some s) none (some st) => if s = "processing" then some st else none
    | _ => none

/-- Replay of a trace against the task-store state of one task (clock held
fixed; the store semantics is `applyUpdate`): `set_result` is
`update(status="completed", progress=100, step="Completed", result=...)` and
`set_error` is `update(status="failed", step="Failed", error=msg)`. -/
def applyEv (st : TaskStateM) (e : Ev) : TaskStateM :=
  match e with
  | Ev.upd s p stp => applyUpdate st s (p.map (fun n => (n : Int))) stp none none
      st.updated_at
  | Ev.setRes => applyUpdate st (some "completed") (some 100) (some "Completed")
      (some "result") none st.updated_at
  | Ev.setErr m => applyUpdate st (some "failed") none (some "Failed") none (some m)
      st.updated_at
  | _ => st

/-- Fold a trace over the single-task store state. -/
def replayEvents (st : TaskStateM) (tr : List Ev) : TaskStateM :=
  tr.foldl applyEv st

/-- An attempt specification whose collaborators all succeed. -/
def allOkSpec : AttemptSpec :=
  ⟨true, Except.ok (), Except.ok (), Except.ok (), Except.ok (), Except.ok ()⟩

/-- An attempt specification that fails the upload-existence check. -/
def missingFileSpec : AttemptSpec :=
  ⟨false, Except.ok (), Except.ok (), Except.ok (), Except.ok (), Except.ok ()⟩

/-- A diarization call that forwards at least one speaker-count hint. -/
def diarizeHintEv (e : Ev) : Bool :=
  match e with
  | Ev.callDiarize _ n mn mx => n.isSome || mn.isSome || mx.isSome
  | _ => false

theorem attemptAfterPrep_events (a : AttemptSpec) (fp tid : String) (evs : List Ev)
    (ap : String) (temps : List String) :
    countEv isPrepEv (attemptAfterPrep a fp tid evs ap temps).1 =
      countEv isPrepEv evs ∧
    retrySteps (attemptAfterPrep a fp tid evs ap temps).1 = retrySteps evs ∧
    countEv isDbUpdateEv (attemptAfterPrep a fp tid evs ap temps).1 =
      countEv isDbUpdateEv evs ∧
    countEv diarizeHintEv (attemptAfterPrep a fp tid evs ap temps).1 =
      countEv diarizeHintEv evs := by
  rcases a with ⟨fe, ex, cv, tsc, dz, sv⟩
  cases tsc <;> cases dz <;> cases sv <;>
    simp [attemptAfterPrep, countEv, isPrepEv, isDbUpdateEv, diarizeHintEv, retrySteps,
      List.filter_append, List.filterMap_append]

theorem attemptRun_events (kind : FKind) (a : AttemptSpec) (fp tid : String) :
    countEv isPrepEv (attemptRun kind a fp tid).1 = 1 ∧
    retrySteps (attemptRun kind a fp tid).1 = [] ∧
    countEv isDbUpdateEv (attemptRun kind a fp tid).1 = 0 ∧
    countEv diarizeHintEv (attemptRun kind a fp tid).1 = 0 := by
  rcases a with ⟨fe, ex, cv, tsc, dz, sv⟩
  cases fe with
  | false =>
      have hrun : (attemptRun kind ⟨false, ex, cv, tsc, dz, sv⟩ fp tid).1 =
          [Ev.upd (some "processing") (some 10) (some "Preparing file")] := by
        simp [attemptRun]
      rw [hrun]
      exact ⟨by decide, by decide, by decide, by decide⟩
  | true =>
      cases kind with
      | video =>
          cases ex with
          | error msg =>
              have hrun : (attemptRun FKind.video
                  ⟨true, Except.error msg, cv, tsc, dz, sv⟩ fp tid).1 =
                  [Ev.upd (some "processing") (some 10) (some "Preparing file"),
                   Ev.upd (some "processing") (some 20)
                     (some "Extracting audio from video")] := by
                simp [attemptRun]
              rw [hrun]
              exact ⟨by decide, by decide, by decide, by decide⟩
          | ok u =>
              have hrun : (attemptRun FKind.video
                  ⟨true, Except.ok u, cv, tsc, dz, sv⟩ fp tid).1 =
                  (attemptAfterPrep ⟨true, Except.ok u, cv, tsc, dz, sv⟩ fp tid
                    [Ev.upd (some "processing") (some 10) (some "Preparing file"),
                     Ev.upd (some "processing") (some 20)
                       (some "Extracting audio from video")]
                    (audioOutPath fp "_audio" ".wav")
                    [audioOutPath fp "_audio" ".wav"]).1 := by
                simp [attemptRun]
              obtain ⟨h1, h2, h3, h4⟩ := attemptAfterPrep_events
                ⟨true, Except.ok u, cv, tsc, dz, sv⟩ fp tid
                [Ev.upd (some "processing") (some 10) (some "Preparing file"),
                 Ev.upd (some "processing") (some 20)
                   (some "Extracting audio from video")]
                (audioOutPath fp "_audio" ".wav") [audioOutPath fp "_audio" ".wav"]
              rw [hrun, h1, h2, h3, h4]
              exact ⟨by decide, by decide, by decide, by decide⟩
      | wav =>
          have hrun : (attemptRun FKind.wav ⟨true, ex, cv, tsc, dz, sv⟩ fp tid).1 =
              (attemptAfterPrep ⟨true, ex, cv, tsc, dz, sv⟩ fp tid
                [Ev.upd (some "processing") (some 10) (some "Preparing file")]
                fp []).1 := by
            simp [attemptRun]
          obtain ⟨h1, h2, h3, h4⟩ := attemptAfterPrep_events
            ⟨true, ex, cv, tsc, dz, sv⟩ fp tid
            [Ev.upd (some "processing") (some 10) (some "Preparing file")] fp []
          rw [hrun, h1, h2, h3, h4]
          exact ⟨by decide, by decide, by decide, by decide⟩
      | other =>
          cases cv with
          | error msg =>
              have hrun : (attemptRun FKind.other
                  ⟨true, ex, Except.error msg, tsc, dz, sv⟩ fp tid).1 =
                  [Ev.upd (some "processing") (some 10) (some "Preparing file"),
                   Ev.upd (some "processing") (some 20)
                     (some "Converting audio format")] := by
                simp [attemptRun]
              rw [hrun]
              exact ⟨by decide, by decide, by decide, by decide⟩
          | ok u =>
              have hrun : (attemptRun FKind.other
                  ⟨true, ex, Except.ok u, tsc, dz, sv⟩ fp tid).1 =
                  (attemptAfterPrep ⟨true, ex, Except.ok u, tsc, dz, sv⟩ fp tid
                    [Ev.upd (some "processing") (some 10) (some "Preparing file"),
                     Ev.upd (some "processing") (some 20)
                       (some "Converting audio format")]
                    (audioOutPath fp "_converted" ".wav")
                    [audioOutPath fp "_converted" ".wav"]).1 := by
                simp [attemptRun]
              obtain ⟨h1, h2, h3, h4⟩ := attemptAfterPrep_events
                ⟨true, ex, Except.ok u, tsc, dz, sv⟩ fp tid
                [Ev.upd (some "processing") (some 10) (some "Preparing file"),
                 Ev.upd (some "processing") (some 20) (some "Converting audio format")]
                (audioOutPath fp "_converted" ".wav") [audioOutPath fp "_converted" ".wav"]
              rw [hrun, h1, h2, h3, h4]
              exact ⟨by decide, by decide, by decide, by decide⟩

theorem processGo_counts (kind : FKind) (env : Nat → AttemptSpec) (fp tid : String)
    (maxR delay : Nat) :
    ∀ r i, countEv isDbUpdateEv (processGo kind env fp tid maxR delay r i) = 0 ∧
      countEv diarizeHintEv (processGo kind env fp tid maxR delay r i) = 0 := by
  intro r
  induction r with
  | zero => intro i; exact ⟨rfl, rfl⟩
  | succ r ih =>
      intro i
      obtain ⟨_, _, h3, h4⟩ := attemptRun_events kind (env i) fp tid
      rcases hrun : attemptRun kind (env i) fp tid with ⟨evs, err, temps⟩
      rw [hrun] at h3 h4
      cases err with
      | none =>
          have htr : processGo kind env fp tid maxR delay (r + 1) i = evs := by
            rw [processGo, hrun]
          rw [htr]
          exact ⟨h3, h4⟩
      | some msg =>
          cases r with
          | zero =>
              have htr : processGo kind env fp tid maxR delay 1 i =
                  evs ++ [Ev.clean temps, Ev.clean [fp], Ev.setErr msg] := by
                rw [processGo, hrun]
              rw [htr]
              simp [countEv, List.filter_append, isDbUpdateEv, diarizeHintEv] at h3 h4 ⊢
              exact ⟨h3, h4⟩
          | succ r' =>
              have htr : processGo kind env fp tid maxR delay (r' + 1 + 1) i =
                  evs ++ [Ev.clean temps,
                    Ev.upd (some "processing") none (some (retryLabel (i + 1) maxR)),
                    Ev.sleepEv delay] ++
                  processGo kind env fp tid maxR delay (r' + 1) (i + 1) := by
                rw [processGo, hrun]
              obtain ⟨ih3, ih4⟩ := ih (i + 1)
              rw [htr]
              simp [countEv, List.filter_append, isDbUpdateEv, diarizeHintEv] at h3 h4 ih3 ih4 ⊢
              exact ⟨⟨h3, ih3⟩, ⟨h4, ih4⟩⟩

/-- C7: the orchestrator never invokes the persistence collaborator's
`update_transcription` — every trace contains zero `dbUpdate` events — while
a fully successful run does write the local JSON result file and marks the
TaskState completed via `set_result`. -/
theorem c7_result_not_persisted_via_update :
    (∀ (kind : FKind) (env : Nat → AttemptSpec) (fp taskId : String) (maxR delay : Nat),
      countEv isDbUpdateEv (processTranscription kind env fp taskId maxR delay) = 0) ∧
    Ev.writeJson "t" ∈
      processTranscription FKind.wav (fun _ => allOkSpec) "up.wav" "t" 3 60 ∧
    Ev.setRes ∈ processTranscription FKind.wav (fun _ => allOkSpec) "up.wav" "t" 3 60 :=
  ⟨fun kind env fp taskId maxR delay =>
    (processGo_counts kind env fp taskId maxR delay (maxR + 1) 0).1,
   by decide, by decide⟩

/-- C6: no diarization call of the pipeline ever forwards a speaker-count
hint (every `callDiarize` event carries `none` for `num_speakers`,
`min_speakers` and `max_speakers`), and a fully successful run does invoke
the diarization engine — `process_transcription` has no diarization flag and
calls `diarize(audio_path)` unconditionally. -/
theorem c6_diarize_unconditional_no_hints :
    (∀ (kind : FKind) (env : Nat → AttemptSpec) (fp taskId : String) (maxR delay : Nat),
      countEv diarizeHintEv (processTranscription kind env fp taskId maxR delay) = 0) ∧
    Ev.callDiarize "up.wav" none none none ∈
      processTranscription FKind.wav (fun _ => allOkSpec) "up.wav" "t" 3 60 :=
  ⟨fun kind env fp taskId maxR delay =>
    (processGo_counts kind env fp taskId maxR delay (maxR + 1) 0).2,
   by decide⟩

theorem processGo_fail (kind : FKind) (env : Nat → AttemptSpec) (fp tid : String)
    (maxR delay : Nat)
    (hfail : ∀ i, (attemptRun kind (env i) fp tid).2.1 ≠ none) :
    ∀ r i,
      countEv isPrepEv (processGo kind env fp tid maxR delay (r + 1) i) = r + 1 ∧
      retrySteps (processGo kind env fp tid maxR delay (r + 1) i) =
        (List.range r).map (fun j => retryLabel (i + 1 + j) maxR) ∧
      ∃ msg, (attemptRun kind (env (i + r)) fp tid).2.1 = some msg ∧
        ∃ pre, processGo kind env fp tid maxR delay (r + 1) i =
          pre ++ [Ev.clean [fp], Ev.setErr msg] := by
  intro r
  induction r with
  | zero =>
      intro i
      obtain ⟨h1, h2, _, _⟩ := attemptRun_events kind (env i) fp tid
      rcases hrun : attemptRun kind (env i) fp tid with ⟨evs, err, temps⟩
      rw [hrun] at h1 h2
      cases err with
      | none => exact absurd (by rw [hrun]) (hfail i)
      | some msg =>
          have htr : processGo kind env fp tid maxR delay 1 i =
              evs ++ [Ev.clean temps, Ev.clean [fp], Ev.setErr msg] := by
            rw [processGo, hrun]
          refine ⟨?_, ?_, msg, by rw [Nat.add_zero, hrun], evs ++ [Ev.clean temps], ?_⟩
          · rw [htr]
            simp only [countEv, List.filter_append] at h1 ⊢
            simp [h1, isPrepEv]
          · rw [htr]
            simp only [retrySteps, List.filterMap_append] at h2 ⊢
            simp [h2]
          · rw [htr]
            simp
  | succ r ih =>
      intro i
      obtain ⟨h1, h2, _, _⟩ := attemptRun_events kind (env i) fp tid
      rcases hrun : attemptRun kind (env i) fp tid with ⟨evs, err, temps⟩
      rw [hrun] at h1 h2
      cases err with
      | none => exact absurd (by rw [hrun]) (hfail i)
      | some msg =>
          have htr : processGo kind env fp tid maxR delay (r + 1 + 1) i =
              evs ++ [Ev.clean temps,
                Ev.upd (some "processing") none (some (retryLabel (i + 1) maxR)),
                Ev.sleepEv delay] ++
              processGo kind env fp tid maxR delay (r + 1) (i + 1) := by
            rw [processGo, hrun]
          obtain ⟨ih1, ih2, msg2, ihmsg, pre2, ihpre⟩ := ih (i + 1)
          refine ⟨?_, ?_, msg2, ?_, ?_⟩
          · rw [htr]
            simp only [countEv, List.filter_append] at h1 ih1 ⊢
            simp [h1, ih1, isPrepEv]
            omega
          · rw [htr]
            simp only [retrySteps, List.filterMap_append] at h2 ih2 ⊢
            rw [h2, ih2]
            have hr : List.range (r + 1) = 0 :: (List.range r).map Nat.succ :=
              List.range_succ_eq_map r
            rw [hr]
            simp only [List.map_cons, List.map_map, List.nil_append,
              List.filterMap_cons, List.filterMap_nil]
            simp
            intro a _
            congr 1
            omega
          · have : i + (r + 1) = i + 1 + r := by omega
            rw [this]
            exact ihmsg
          · refine ⟨evs ++ [Ev.clean temps,
              Ev.upd (some "processing") none (some (retryLabel (i + 1) maxR)),
              Ev.sleepEv delay] ++ pre2, ?_⟩
            rw [htr, ihpre]
            simp

/-- C2 (amended): when every processing attempt raises, the TaskState
receives exactly `max_retries + 1` attempt-start processing updates (progress
10, step "Preparing file", one per attempt) and exactly `max_retries`
additional processing re-entry updates whose step labels name the retry
attempt numbers 1..max_retries; the trace ends by deleting the original
uploaded file and calling `set_error` with the final attempt's message, after
which the replayed TaskState has status `failed` carrying that message. -/
theorem c2_retry_exhaustion (kind : FKind) (env : Nat → AttemptSpec)
    (fp taskId : String) (maxR delay : Nat) (st0 : TaskStateM)
    (hfail : ∀ i, (attemptRun kind (env i) fp taskId).2.1 ≠ none) :
    countEv isPrepEv (processTranscription kind env fp taskId maxR delay) = maxR + 1 ∧
    retrySteps (processTranscription kind env fp taskId maxR delay) =
      (List.range maxR).map (fun j => retryLabel (j + 1) maxR) ∧
    ∃ msg, (attemptRun kind (env maxR) fp taskId).2.1 = some msg ∧
      (∃ pre, processTranscription kind env fp taskId maxR delay =
        pre ++ [Ev.clean [fp], Ev.setErr msg]) ∧
      (replayEvents st0 (processTranscription kind env fp taskId maxR delay)).status =
        "failed" ∧
      (replayEvents st0 (processTranscription kind env fp taskId maxR delay)).error =
        some msg := by
  obtain ⟨h1, h2, msg, hmsg, pre, hpre⟩ :=
    processGo_fail kind env fp taskId maxR delay hfail maxR 0
  rw [Nat.zero_add] at hmsg
  refine ⟨h1, ?_, msg, hmsg, ⟨pre, hpre⟩, ?_, ?_⟩
  · rw [processTranscription, h2]
    refine List.map_congr_left fun j _ => ?_
    have : 0 + 1 + j = j + 1 := by omega
    rw [this]
  all_goals
    rw [processTranscription, hpre, replayEvents, List.foldl_append]
    simp [applyEv, applyUpdate]

/-- C2 witness: a wav upload whose file-existence check fails on both
attempts with `max_retries = 1` — two "Preparing file" processing updates,
one retry re-entry labelled `(1/1)`, final state `failed`. -/
theorem c2_retry_exhaustion_witness :
    countEv isPrepEv (processTranscription FKind.wav (fun _ => missingFileSpec)
      "up.wav" "t" 1 0) = 2 ∧
    retrySteps (processTranscription FKind.wav (fun _ => missingFileSpec)
      "up.wav" "t" 1 0) = ["Retrying transcription (1/1)"] ∧
    (replayEvents (TaskStateM.mk "t" "pending" 0 "" none none 0 0)
      (processTranscription FKind.wav (fun _ => missingFileSpec)
        "up.wav" "t" 1 0)).status = "failed" := by
  have hone : (attemptRun FKind.wav missingFileSpec "up.wav" "t").2.1 ≠ none := by
    decide
  obtain ⟨h1, h2, msg, hmsg, hpre, hstat, herr⟩ :=
    c2_retry_exhaustion FKind.wav (fun _ => missingFileSpec) "up.wav" "t" 1 0
      (TaskStateM.mk "t" "pending" 0 "" none none 0 0) (fun i => hone)
  refine ⟨h1, ?_, hstat⟩
  rw [h2]
  decide

/-- C2 counterexample: with `max_retries = 1` and every attempt failing at
the existence check, the trace sets `status="processing"` three times (two
attempt starts plus one retry re-entry), not `max_retries + 1 = 2` times. -/
theorem c2_processing_count_counterexample :
    countEv isProcessingUpd (processTranscription FKind.wav
      (fun _ => missingFileSpec) "up.wav" "t" 1 0) = 3 ∧ (3 : Nat) ≠ 1 + 1 := by
  decide

/-! ### Call boundary between the endpoint and the queued job
(`app/main.py` / `app/task_queue.py` / `tasks/transcription_task.py`)

The worker executes a dequeued job as `func(**kwargs)`.  Python binds each
keyword argument to a parameter of the callee's signature and raises
`TypeError` for any unexpected keyword argument, before the function body
runs.
-/

/-- The parameter names of `def process_transcription(file_path, task_id,
language, chunk_length_s, max_retries, retry_delay_s)`. -/
def processTranscriptionParams : List String :=
  ["file_path", "task_id", "language", "chunk_length_s", "max_retries",
   "retry_delay_s"]

/-- The keyword-argument names the `/transcribe` endpoint passes to
`task_queue.enqueue(process_transcription, ...)`. -/
def transcribeEndpointKwargs : List String :=
  ["file_path", "task_id", "language", "enable_diarization", "user_id",
   "num_speakers", "min_speakers", "max_speakers"]

/-- Python keyword binding succeeds only when every supplied keyword names a
parameter of the callee (no `**kwargs` catch-all exists in the signature). -/
def callBindsOk (kwargs params : List String) : Bool :=
  kwargs.all (fun k => params.contains k)

/-- C8: the keyword arguments enqueued by the endpoint do not bind to
`process_transcription`'s signature — `enable_diarization`, `user_id` and the
speaker-count hints are not parameters — so the worker's `func(**kwargs)`
dispatch raises `TypeError` before the pipeline starts. -/
theorem c8_call_boundary_mismatch :
    callBindsOk transcribeEndpointKwargs processTranscriptionParams = false ∧
    "enable_diarization" ∈ transcribeEndpointKwargs ∧
    "enable_diarization" ∉ processTranscriptionParams ∧
    "user_id" ∈ transcribeEndpointKwargs ∧
    "user_id" ∉ processTranscriptionParams ∧
    "num_speakers" ∈ transcribeEndpointKwargs ∧
    "num_speakers" ∉ processTranscriptionParams ∧
    "min_speakers" ∈ transcribeEndpointKwargs ∧
    "min_speakers" ∉ processTranscriptionParams ∧
    "max_speakers" ∈ transcribeEndpointKwargs ∧
    "max_speakers" ∉ processTranscriptionParams := by
  decide

end STT
